import Mathlib

/-!
Verification of the persistence engine of the railroad-inventory application
(`app/storage.py`): a shallow embedding of the object-document mapping layer
(`CouchStore`, `Session`, `Query`, `BaseModel`) together with trace models of
the compare-and-swap counter loops, and theorems settling the specification
claims about it.

Conventions of the embedding:
* Python scalar attribute values are modelled by `Value`; Python `None` is
  `Value.vnone`.
* Machine integers are `Int` (Python ints are unbounded, so no wrap-around).
* Python code that raises is modelled with `Option` (`none` = an exception
  escaped).
* The CouchDB client library is not part of the repository; its operations
  (`db[..]`, `db.get`, `db.save`, `db.delete`, views) are modelled from the
  spec's Document Store Client contract (spec section 4.1/6): documents are
  keyed by string id, each carries a revision, and a save presenting a stale
  revision fails as a conflict.
* Sequential executions are modelled with direct state passing; the
  concurrent behaviour of the counter CAS loops is modelled separately by
  explicit interleaving trace models.
-/

namespace RailInv

/-- Primitive field values of a stored document (Python scalars); `vnone` is Python `None`. -/
inductive Value where
  | vnone : Value
  | vbool (b : Bool) : Value
  | vint (n : Int) : Value
  | vstr (s : String) : Value
deriving DecidableEq

/-- Rank used to order values of different kinds. Python raises `TypeError` when a
sort compares values of different kinds, so every comparison Python actually
completes agrees with this order; the model totalises it by ranking the kinds. -/
def Value.kindRank : Value → Nat
  | .vnone => 0
  | .vbool _ => 1
  | .vint _ => 2
  | .vstr _ => 3

/-- Python `<=` on two field values of the same kind (`False < True` for booleans),
totalised across kinds by `kindRank`. -/
def Value.pyLEb : Value → Value → Bool
  | .vnone, .vnone => true
  | .vbool a, .vbool b => decide (a ≤ b)
  | .vint a, .vint b => decide (a ≤ b)
  | .vstr a, .vstr b => decide (a ≤ b)
  | x, y => decide (x.kindRank < y.kindRank)

theorem Value.pyLEb_total (x y : Value) : x.pyLEb y = true ∨ y.pyLEb x = true := by
  cases x <;> cases y <;> simp [Value.pyLEb, Value.kindRank] <;>
    first
      | omega
      | exact le_total _ _

theorem Value.pyLEb_trans {x y z : Value} (h1 : x.pyLEb y = true) (h2 : y.pyLEb z = true) :
    x.pyLEb z = true := by
  cases x <;> cases y <;> cases z <;> simp_all [Value.pyLEb, Value.kindRank] <;>
    first
      | omega
      | exact le_trans h1 h2

/-- Order on the sort keys of `Query.all`: the Python key tuple
`(value is None, value)` compared lexicographically (storage.py lines 382-386). -/
def keyLEb (x y : Value) : Bool :=
  if x = .vnone then y == .vnone else (if y = .vnone then true else x.pyLEb y)

theorem keyLEb_total (x y : Value) : keyLEb x y = true ∨ keyLEb y x = true := by
  unfold keyLEb
  by_cases hx : x = Value.vnone
  · by_cases hy : y = Value.vnone <;> simp [hx, hy]
  · by_cases hy : y = Value.vnone
    · simp [hx, hy]
    · simpa [hx, hy] using Value.pyLEb_total x y

theorem keyLEb_trans {x y z : Value} (h1 : keyLEb x y = true) (h2 : keyLEb y z = true) :
    keyLEb x z = true := by
  unfold keyLEb at h1 h2 ⊢
  by_cases hx : x = Value.vnone <;> by_cases hy : y = Value.vnone <;>
    by_cases hz : z = Value.vnone <;> simp_all
  exact Value.pyLEb_trans h1 h2

theorem keyLEb_none_left {y : Value} (h : keyLEb .vnone y = true) : y = .vnone := by
  simpa [keyLEb] using h

/-- In-memory entity object (a `BaseModel` instance): the Python attribute state.
`fieldNames` is the declared dataclass field list without `id` and without the
underscore-prefixed bookkeeping fields (`_rev`, `_store`, `_dirty`, `_tracking`);
`values` gives the declared attribute values; `rev` is `_rev`, `dirty` is `_dirty`. -/
structure Entity where
  doc_type : String
  counter_key : String
  id : Option Int
  fieldNames : List String
  values : String → Value
  rev : Option Nat
  dirty : Bool

/-- The `id` attribute as a document value (Python `None` before the first save). -/
def idValue : Option Int → Value
  | none => .vnone
  | some i => .vint i

/-- Python `getattr(item, name)` for declared attributes of an entity. -/
def Entity.getattr (e : Entity) (n : String) : Value :=
  if n = "id" then idValue e.id else e.values n

/-- The comparison used by the `Query.all` sort (storage.py lines 381-388): key
`(getattr(item, field) is None, getattr(item, field))`, with the `reverse` flag of
Python `list.sort` flipping the whole key order while remaining stable. -/
def querySortRel (f : String) (reverse : Bool) (a b : Entity) : Prop :=
  (if reverse then keyLEb (b.getattr f) (a.getattr f)
   else keyLEb (a.getattr f) (b.getattr f)) = true

instance (f : String) (reverse : Bool) : DecidableRel (querySortRel f reverse) := fun _ _ =>
  inferInstanceAs (Decidable (_ = true))

theorem querySortRel_total (f : String) (reverse : Bool) (a b : Entity) :
    querySortRel f reverse a b ∨ querySortRel f reverse b a := by
  unfold querySortRel
  cases reverse
  · simpa using keyLEb_total (Entity.getattr a f) (Entity.getattr b f)
  · simpa using keyLEb_total (Entity.getattr b f) (Entity.getattr a f)

theorem querySortRel_trans (f : String) (reverse : Bool) {a b c : Entity}
    (h1 : querySortRel f reverse a b) (h2 : querySortRel f reverse b c) :
    querySortRel f reverse a c := by
  unfold querySortRel at h1 h2 ⊢
  cases reverse
  · simp only [Bool.false_eq_true, if_false] at h1 h2 ⊢
    exact keyLEb_trans h1 h2
  · simp only [if_true] at h1 h2 ⊢
    exact keyLEb_trans h2 h1

/-- The client-side sort step of `Query.all` (storage.py lines 381-388). Python's
Timsort is a stable sort; a stable insertion sort by the same total preorder of keys
produces the identical list, so the model uses `List.insertionSort`. -/
def applySort (f : String) (reverse : Bool) (items : List Entity) : List Entity :=
  List.insertionSort (querySortRel f reverse) items

/-- Test entity carrying a single relevant attribute `mass`. -/
def entV (i : Int) (v : Value) : Entity :=
  { doc_type := "car", counter_key := "cars", id := some i, fieldNames := ["mass"],
    values := fun n => if n = "mass" then v else .vnone, rev := none, dirty := false }

/-- C1, counterexample: sorting descending (`order_by(field, reverse=True)`) places the
record whose sort-field value is `None` FIRST, before the record with a value, so the
claim that `None` records sort after all records with a value regardless of direction
is false on the code. -/
theorem C1_descending_none_first_counterexample :
    (applySort "mass" true [entV 1 (.vint 5), entV 2 .vnone]).map
        (fun e => e.getattr "mass") = [.vnone, .vint 5]
    ∧ ¬ (applySort "mass" true [entV 1 (.vint 5), entV 2 .vnone]).Pairwise
        (fun a b => a.getattr "mass" = Value.vnone → b.getattr "mass" = Value.vnone) := by
  have h : applySort "mass" true [entV 1 (.vint 5), entV 2 .vnone]
      = [entV 2 .vnone, entV 1 (.vint 5)] := rfl
  refine ⟨by rw [h]; rfl, ?_⟩
  rw [h]
  intro hp
  have hrel := (List.pairwise_cons.mp hp).1 (entV 1 (.vint 5)) (List.mem_singleton.mpr rfl)
  have h1 : (entV 2 Value.vnone).getattr "mass" = Value.vnone := rfl
  exact absurd (hrel h1) (by decide)

/-- C1 (amended): the `order_by` sort of `Query.all` is a stable sort by the Python key
`(value is None, value)` in both directions; in ascending order every entity whose
sort-field value is `None` is placed after all entities that have a value, but in
descending order (`reverse=True`) the `None` entities are placed before all entities
with a value, because the `reverse` flag flips the whole key order. -/
theorem C1_order_by_stable_none_placement (f : String) (reverse : Bool)
    (items : List Entity) :
    (applySort f reverse items).Perm items
    ∧ (applySort f reverse items).Pairwise (querySortRel f reverse)
    ∧ (∀ a b : Entity, querySortRel f reverse a b → querySortRel f reverse b a →
        [a, b].Sublist items → [a, b].Sublist (applySort f reverse items))
    ∧ (applySort f false items).Pairwise
        (fun a b => a.getattr f = Value.vnone → b.getattr f = Value.vnone)
    ∧ (applySort f true items).Pairwise
        (fun a b => b.getattr f = Value.vnone → a.getattr f = Value.vnone) := by
  refine ⟨List.perm_insertionSort _ _, ?_, ?_, ?_, ?_⟩
  · haveI : IsTotal Entity (querySortRel f reverse) := ⟨querySortRel_total f reverse⟩
    haveI : IsTrans Entity (querySortRel f reverse) := ⟨fun _ _ _ => querySortRel_trans f reverse⟩
    exact List.sorted_insertionSort _ _
  · intro a b hab _hba hsub
    exact List.pair_sublist_insertionSort hab hsub
  · haveI : IsTotal Entity (querySortRel f false) := ⟨querySortRel_total f false⟩
    haveI : IsTrans Entity (querySortRel f false) := ⟨fun _ _ _ => querySortRel_trans f false⟩
    refine (List.sorted_insertionSort (querySortRel f false) items).imp ?_
    intro a b hab ha
    have hb : keyLEb (a.getattr f) (b.getattr f) = true := by
      simpa [querySortRel] using hab
    rw [ha] at hb
    exact keyLEb_none_left hb
  · haveI : IsTotal Entity (querySortRel f true) := ⟨querySortRel_total f true⟩
    haveI : IsTrans Entity (querySortRel f true) := ⟨fun _ _ _ => querySortRel_trans f true⟩
    refine (List.sorted_insertionSort (querySortRel f true) items).imp ?_
    intro a b hab hb
    have ha : keyLEb (b.getattr f) (a.getattr f) = true := by
      simpa [querySortRel] using hab
    rw [hb] at ha
    exact keyLEb_none_left ha

/-- A stored document: the Python dict written to the document store. The CouchDB
revision token (the `_rev` key of the dict) is kept in a separate component `rev`,
modelled as a natural number; `fields` holds every other key. -/
structure Doc where
  fields : String → Option Value
  rev : Option Nat

/-- Python dict assignment `doc[k] = v`. -/
def Doc.set (d : Doc) (k : String) (v : Value) : Doc :=
  { d with fields := fun n => if n = k then some v else d.fields n }

/-- Python `doc.get(k)` (`None`, i.e. `none`, when the key is absent). -/
def Doc.get (d : Doc) (k : String) : Option Value :=
  d.fields k

theorem Doc.get_set (d : Doc) (k : String) (v : Value) (n : String) :
    (d.set k v).get n = if n = k then some v else d.get n := rfl

/-- String form of an id as interpolated into a document id (Python `str`). -/
def idStr : Option Int → String
  | none => "None"
  | some i => toString i

/-- BaseModel.doc_id (storage.py lines 459-461): the string `"<doc_type>:<id>"`. -/
def Entity.docId (e : Entity) : String :=
  e.doc_type ++ ":" ++ idStr e.id

/-- Python `name.startswith("_")` on a field name: the first character is an
underscore. -/
def isUnderscoreName (n : String) : Bool :=
  match n.data with
  | [] => false
  | c :: _ => c = '_'

/-- The field-writing step of `BaseModel.to_doc`: write a declared dataclass field
into the document unless its name is underscore-prefixed. -/
def toDocStep (e : Entity) (d : Doc) (n : String) : Doc :=
  if isUnderscoreName n then d else d.set n (e.values n)

/-- BaseModel.to_doc (storage.py lines 463-471): build the document dict with `_id`
and `type`, write every declared non-underscore dataclass field (the `id` field first,
as declared on `BaseModel`, then the subclass fields), and attach `_rev` when the
object has a revision. -/
def Entity.to_doc (e : Entity) : Doc :=
  let d : Doc := { fields := fun _ => none, rev := none }
  let d := d.set "_id" (.vstr e.docId)
  let d := d.set "type" (.vstr e.doc_type)
  let d := d.set "id" (idValue e.id)
  let d := e.fieldNames.foldl (toDocStep e) d
  { d with rev := e.rev }

/-- Decode the `id` document field back into the Python int-or-None attribute. -/
def decodeId : Option Value → Option Int
  | some (.vint i) => some i
  | _ => none

/-- Class-level data of a BaseModel subclass: its `doc_type` tag, its `counter_key`,
and its declared dataclass field list without `id` and without the underscore-prefixed
bookkeeping fields. -/
structure ModelCls where
  doc_type : String
  counter_key : String
  fieldNames : List String

/-- BaseModel.from_doc (storage.py lines 473-485): populate the declared
non-underscore fields by name from the document (via `doc.get`, hence Python `None`
when a key is absent), attach the revision, and mark the freshly hydrated object as
not dirty. The `_store` back-reference carries no data in the model. -/
def ModelCls.from_doc (cls : ModelCls) (d : Doc) : Entity :=
  { doc_type := cls.doc_type
    counter_key := cls.counter_key
    id := decodeId (d.get "id")
    fieldNames := cls.fieldNames
    values := fun n =>
      if cls.fieldNames.contains n ∧ ¬ isUnderscoreName n then (d.get n).getD .vnone
      else .vnone
    rev := d.rev
    dirty := false }

theorem toDoc_fold_get_not_mem (e : Entity) (fs : List String) (d : Doc) (n : String)
    (h : fs.contains n = false) :
    (fs.foldl (toDocStep e) d).get n = d.get n := by
  induction fs generalizing d with
  | nil => rfl
  | cons m rest ih =>
    simp only [List.contains_cons, Bool.or_eq_false_iff, beq_eq_false_iff_ne] at h
    simp only [List.foldl_cons]
    rw [ih _ h.2]
    unfold toDocStep
    by_cases hu : isUnderscoreName m
    · simp [hu]
    · simp [hu, Doc.get_set, h.1]

theorem toDoc_fold_get_mem (e : Entity) (fs : List String) (d : Doc) (n : String)
    (hmem : fs.contains n = true) (hus : isUnderscoreName n = false) :
    (fs.foldl (toDocStep e) d).get n = some (e.values n) := by
  induction fs generalizing d with
  | nil => simp at hmem
  | cons m rest ih =>
    simp only [List.foldl_cons]
    by_cases hn : rest.contains n = true
    · exact ih _ hn
    · have hm : m = n := by
        simp only [List.contains_cons, Bool.or_eq_true, beq_iff_eq] at hmem
        rcases hmem with h | h
        · exact h.symm
        · exact absurd h hn
      subst hm
      rw [toDoc_fold_get_not_mem e rest _ m (by simpa using hn)]
      unfold toDocStep
      simp [hus, Doc.get_set]

/-- C8: serialization round-trips. Hydrating the serialized form of any entity of a
declared model class reproduces every declared non-underscore field, including `id`,
and the freshly hydrated entity has its dirty flag unset. -/
theorem C8_from_doc_to_doc_round_trip (e : Entity) (cls : ModelCls)
    (hdt : cls.doc_type = e.doc_type) (hck : cls.counter_key = e.counter_key)
    (hfn : cls.fieldNames = e.fieldNames) (hid : e.fieldNames.contains "id" = false) :
    (cls.from_doc e.to_doc).id = e.id
    ∧ (∀ n, e.fieldNames.contains n = true → isUnderscoreName n = false →
        (cls.from_doc e.to_doc).getattr n = e.getattr n)
    ∧ (cls.from_doc e.to_doc).dirty = false
    ∧ (cls.from_doc e.to_doc).doc_type = e.doc_type
    ∧ (cls.from_doc e.to_doc).counter_key = e.counter_key := by
  have hgetid : e.to_doc.get "id" = some (idValue e.id) := by
    have h1 : e.to_doc.get "id"
        = (e.fieldNames.foldl (toDocStep e)
            (((({ fields := fun _ => none, rev := none } : Doc).set "_id"
              (.vstr e.docId)).set "type" (.vstr e.doc_type)).set "id"
              (idValue e.id))).get "id" := rfl
    rw [h1, toDoc_fold_get_not_mem e _ _ _ hid]
    simp [Doc.get_set]
  refine ⟨?_, ?_, rfl, hdt, hck⟩
  · show decodeId (e.to_doc.get "id") = e.id
    rw [hgetid]
    cases e.id <;> rfl
  · intro n hmem hus
    have hne : n ≠ "id" := by
      intro hcontra
      rw [hcontra] at hmem
      rw [hmem] at hid
      exact Bool.true_eq_false.mp hid
    have hgetn : e.to_doc.get n = some (e.values n) := by
      unfold Entity.to_doc
      simp only [Doc.get]
      exact toDoc_fold_get_mem e e.fieldNames _ n hmem hus
    unfold Entity.getattr
    rw [if_neg hne, if_neg hne]
    show (cls.from_doc e.to_doc).values n = e.values n
    unfold ModelCls.from_doc
    simp only [hfn]
    rw [if_pos ⟨hmem, by simp [hus]⟩, hgetn]
    rfl

/-- C8 witness: the round-trip theorem applied to a concrete entity. -/
theorem C8_from_doc_to_doc_round_trip_witness :
    ({ doc_type := "car", counter_key := "cars", fieldNames := ["mass"] : ModelCls
      }.from_doc (entV 4 (.vint 9)).to_doc).id = some 4
    ∧ ({ doc_type := "car", counter_key := "cars", fieldNames := ["mass"] : ModelCls
      }.from_doc (entV 4 (.vint 9)).to_doc).getattr "mass" = .vint 9
    ∧ ({ doc_type := "car", counter_key := "cars", fieldNames := ["mass"] : ModelCls
      }.from_doc (entV 4 (.vint 9)).to_doc).dirty = false := by
  have h := C8_from_doc_to_doc_round_trip (entV 4 (.vint 9))
    { doc_type := "car", counter_key := "cars", fieldNames := ["mass"] }
    rfl rfl rfl (by decide)
  refine ⟨h.1, ?_, h.2.2.1⟩
  have h2 := h.2.1 "mass" (by decide) (by decide : isUnderscoreName "mass" = false)
  rw [h2]
  rfl

/-- C1 witness: the amended theorem applied to a concrete list, together with the
concrete evaluation of the two sort directions. -/
theorem C1_order_by_stable_none_placement_witness :
    (applySort "mass" false [entV 1 .vnone, entV 2 (.vint 7), entV 3 (.vint 4)]).map
        (fun e => e.getattr "mass") = [.vint 4, .vint 7, .vnone]
    ∧ (applySort "mass" false [entV 1 .vnone, entV 2 (.vint 7), entV 3 (.vint 4)]).Perm
        [entV 1 .vnone, entV 2 (.vint 7), entV 3 (.vint 4)] := by
  exact ⟨rfl,
    (C1_order_by_stable_none_placement "mass" false
      [entV 1 .vnone, entV 2 (.vint 7), entV 3 (.vint 4)]).1⟩

/-- Default entity used to dereference object references; live references never
resolve to it. -/
def defaultEntity : Entity :=
  { doc_type := "", counter_key := "", id := none, fieldNames := [],
    values := fun _ => .vnone, rev := none, dirty := false }

/-- Process state of `CouchStore` plus the document store it talks to: `dbInit`
says whether `init_app` ran (`self.db` is set); `docs` is the document store's
content keyed by document id; `counters` holds the fields of the singleton
`counters` document (always created by `init_app`, so modelled as always present);
`cache` is the identity cache, mapping `(doc_type, id)` to an object reference into
`heap`, the process heap of live entity objects. -/
structure Store where
  dbInit : Bool
  docs : List (String × Doc)
  counters : String → Option Int
  cache : List ((String × Int) × Nat)
  heap : List (Nat × Entity)
  nextRef : Nat

/-- Dereference an object reference (Python object identity). -/
def Store.getObj (s : Store) (r : Nat) : Option Entity :=
  (s.heap.find? (fun p => p.1 == r)).map Prod.snd

/-- In-place mutation of the object behind a reference. -/
def Store.setObj (s : Store) (r : Nat) (e : Entity) : Store :=
  { s with heap := s.heap.map (fun p => if p.1 = r then (r, e) else p) }

/-- Allocate a fresh object on the heap. -/
def Store.alloc (s : Store) (e : Entity) : Nat × Store :=
  (s.nextRef, { s with heap := (s.nextRef, e) :: s.heap, nextRef := s.nextRef + 1 })

/-- Dereference with a default; live references never hit the default. -/
def Store.deref (s : Store) (r : Nat) : Entity :=
  (s.getObj r).getD defaultEntity

/-- Identity-cache lookup `self.cache.get(cache_key)`. -/
def Store.cacheGet (s : Store) (k : String × Int) : Option Nat :=
  (s.cache.find? (fun p => p.1 == k)).map Prod.snd

/-- Identity-cache write `self.cache[cache_key] = obj`. -/
def Store.cachePut (s : Store) (k : String × Int) (r : Nat) : Store :=
  { s with cache := (k, r) :: s.cache.filter (fun p => !(p.1 == k)) }

/-- Identity-cache removal `self.cache.pop(key, None)`. -/
def Store.cachePop (s : Store) (k : String × Int) : Store :=
  { s with cache := s.cache.filter (fun p => !(p.1 == k)) }

/-- Document-store point read `self.db.get(doc_id)`. -/
def Store.docGet (s : Store) (did : String) : Option Doc :=
  (s.docs.find? (fun p => p.1 == did)).map Prod.snd

/-- CouchStore.next_id (storage.py lines 120-131) in its sequential semantics: the
successful iteration of the CAS loop reads the counter, adds one, and stores it back.
Returns `none` when the store is uninitialized (`RuntimeError`). The concurrent
behaviour of the same loop is modelled by the `NextIdCAS` trace model below. -/
def Store.next_id (s : Store) (key : String) : Option (Int × Store) :=
  if s.dbInit = false then none
  else
    let v := (s.counters key).getD 0 + 1
    some (v, { s with counters := fun k => if k = key then some v else s.counters k })

/-- CouchStore.ensure_counter_at_least (storage.py lines 133-146) in its sequential
semantics: raise the counter to at least `v`, never decreasing it. -/
def Store.ensure_counter_at_least (s : Store) (key : String) (v : Int) : Store :=
  if s.dbInit = false then s
  else if v ≤ (s.counters key).getD 0 then s
  else { s with counters := fun k => if k = key then some v else s.counters k }

/-- CouchStore.total_count (storage.py lines 148-161). After `init_app` the counters
document always exists (`ensure_counters` creates it), so the ResourceNotFound branch
cannot trigger; counter fields are modelled as already-parsed integers, so the
`int(...)` conversion never fails. -/
def Store.total_count (s : Store) (key : String) : Option Int :=
  if s.dbInit = false then none
  else s.counters (key ++ "_total")

/-- CouchStore._update_total (storage.py lines 302-317) in its sequential semantics:
when the total field exists, adjust it by `delta` floored at zero; otherwise return
with no write. -/
def Store.update_total (s : Store) (key : String) (delta : Int) : Store :=
  if s.dbInit = false then s
  else
    match s.counters (key ++ "_total") with
    | none => s
    | some cur =>
      { s with counters := fun k =>
          if k = key ++ "_total" then some (max 0 (cur + delta)) else s.counters k }

/-- Modelled from the spec: the document-store client's `save` (spec sections 4.1 and
6), which is the external couchdb library. The document's `_id` names the target; a
create must present no revision and an update must present the stored revision,
otherwise the save is rejected as a conflict (`none`); a successful save stores the
document under a fresh revision and returns the document id and that revision. -/
def Store.dbSave (s : Store) (d : Doc) : Option ((String × Nat) × Store) :=
  match d.get "_id" with
  | some (.vstr did) =>
    match (s.docs.find? (fun p => p.1 == did)).map Prod.snd with
    | none =>
      if d.rev = none then
        some ((did, 1), { s with docs := (did, { d with rev := some 1 }) :: s.docs })
      else none
    | some old =>
      if d.rev = old.rev then
        let nr := old.rev.getD 0 + 1
        some ((did, nr),
          { s with docs := s.docs.map (fun p =>
              if p.1 = did then (did, { d with rev := some nr }) else p) })
      else none
  | _ => none

/-- Modelled from the spec: the document-store client's `delete` (spec section 4.1).
`CouchStore.delete` calls it on a document it has just read back, so the revision it
presents is current and the removal succeeds. -/
def Store.dbDelete (s : Store) (did : String) : Store :=
  { s with docs := s.docs.filter (fun p => !(p.1 == did)) }

/-- Python `pre.isPrefixOf s` on the underlying character lists (kernel-reducible
form of the string range test used below). -/
def strHasPre (pre s : String) : Bool :=
  List.isPrefixOf pre.data s.data

/-- Modelled from the spec: the `_all_docs` range read of `CouchStore.all` (storage.py
lines 183-190): the stored documents whose id lies between `"<doc_type>:"` and
`"<doc_type>:￰"`, that is, begins with the type prefix, in ascending
document-id order. -/
def Store.allDocsRange (s : Store) (doc_type : String) : List Doc :=
  (List.insertionSort (fun p q : String × Doc => p.1 ≤ q.1)
    (s.docs.filter (fun p => strHasPre (doc_type ++ ":") p.1))).map Prod.snd

/-- Modelled from the spec and the view source installed by `ensure_views` (storage.py
lines 70-96): the `by_type_id` view emits the key `[doc.type, doc.id]` for every
document carrying a `type` and a non-null `id`, sorted by key. `CouchStore.page`
reads the key range `[doc_type, 0] .. [doc_type, high]`, so this returns the
documents of the requested type with an integer id at least 0, in ascending id
order. -/
def Store.viewByTypeId (s : Store) (doc_type : String) : List Doc :=
  (List.insertionSort (fun a b : Int × Doc => a.1 ≤ b.1)
    (s.docs.filterMap (fun p =>
      match decodeId (p.2.get "id") with
      | some i =>
        if p.2.get "type" = some (.vstr doc_type) ∧ 0 ≤ i then some (i, p.2) else none
      | none => none))).map Prod.snd

/-- One row-processing step shared by `CouchStore.all` and `CouchStore.page`
(storage.py lines 192-206 and 226-240): when the identity cache already holds the
row's `(class, id)` key, append the cached object; otherwise hydrate the document and
cache the fresh object (no caching when the document has no usable id). -/
def hydrateStep (cls : ModelCls) (acc : List Nat × Store) (d : Doc) : List Nat × Store :=
  let (res, s) := acc
  match decodeId (d.get "id") with
  | some i =>
    match s.cacheGet (cls.doc_type, i) with
    | some r => (res ++ [r], s)
    | none =>
      let (r, s1) := s.alloc (cls.from_doc d)
      (res ++ [r], s1.cachePut (cls.doc_type, i) r)
  | none =>
    let (r, s1) := s.alloc (cls.from_doc d)
    (res ++ [r], s1)

/-- CouchStore.all (storage.py lines 180-206). -/
def Store.all (s : Store) (cls : ModelCls) : List Nat × Store :=
  if s.dbInit = false then ([], s)
  else (s.allDocsRange cls.doc_type).foldl (hydrateStep cls) ([], s)

/-- The ordered row list behind `CouchStore.page`: the `by_type_id` range, reversed
when reading descending. -/
def Store.pageBase (s : Store) (cls : ModelCls) (reverse : Bool) : List Doc :=
  if reverse then (s.viewByTypeId cls.doc_type).reverse else s.viewByTypeId cls.doc_type

/-- CouchStore.page (storage.py lines 208-240): index-backed pagination. Empty when
`per_page <= 0`; the page number is clamped below at 1; reads `per_page` rows after
skipping `(page-1)*per_page`, and hydrates them through the identity cache. -/
def Store.page (s : Store) (cls : ModelCls) (page per_page : Int) (reverse : Bool) :
    List Nat × Store :=
  if s.dbInit = false then ([], s)
  else if per_page ≤ 0 then ([], s)
  else
    let p := max 1 page
    let rows := ((s.pageBase cls reverse).drop ((p - 1) * per_page).toNat).take per_page.toNat
    rows.foldl (hydrateStep cls) ([], s)

/-- CouchStore.filter_by (storage.py lines 242-252): AND of equality predicates over
the declared attributes of the materialized objects. -/
def Store.filter_by (s : Store) (cls : ModelCls) (filters : List (String × Value)) :
    List Nat × Store :=
  let (items, s1) := s.all cls
  (items.filter (fun r => filters.all (fun kv => (s1.deref r).getattr kv.1 == kv.2)), s1)

/-- CouchStore.save (storage.py lines 254-274) in its sequential semantics. The base
`prepare_save` is a no-op; `is_new` is read before id assignment; a missing id is
allocated through `next_id`, an explicit id raises the counter through
`ensure_counter_at_least`; the saved object gets the fresh revision, its dirty flag
ends unset (the interleaved `__setattr__` flips end with `_dirty = False`), and the
identity cache points at it; a new object increments the type's total. The
reassignment `obj.id = int(doc_id.split(":")[-1])` recovers exactly the id that was
interpolated into `doc_id`, so the model keeps `id` unchanged there. Returns `none`
when the store is uninitialized (RuntimeError) or the document save conflicts. -/
def Store.save (s : Store) (r : Nat) : Option Store :=
  match s.getObj r with
  | none => none
  | some obj0 =>
    if s.dbInit = false then none
    else
      let is_new := obj0.rev = none
      let step1 : Option (Int × Store) :=
        match obj0.id with
        | none => s.next_id obj0.counter_key
        | some i => some (i, s.ensure_counter_at_least obj0.counter_key i)
      match step1 with
      | none => none
      | some (i, s1) =>
        let obj1 := { obj0 with id := some i }
        match s1.dbSave obj1.to_doc with
        | none => none
        | some ((_, nrev), s2) =>
          let obj2 := { obj1 with rev := some nrev, dirty := false }
          let s3 := (s2.setObj r obj2).cachePut (obj2.doc_type, i) r
          some (if is_new then s3.update_total obj2.counter_key 1 else s3)

/-- CouchStore.delete (storage.py lines 276-288): read the document back; when it
exists, delete it and decrement the type's total; in every case drop the
identity-cache entry. A missing store or a missing id returns unchanged. -/
def Store.delete (s : Store) (obj : Entity) : Store :=
  if s.dbInit = false then s
  else
    match obj.id with
    | none => s
    | some i =>
      let did := obj.doc_type ++ ":" ++ toString i
      let s1 :=
        match s.docGet did with
        | none => s
        | some _ => (s.dbDelete did).update_total obj.counter_key (-1)
      s1.cachePop (obj.doc_type, i)

/-- CouchStore.get (storage.py lines 163-178). Result: the object reference (or
`none`), the store after the call, and whether the document store was read. -/
def Store.get (s : Store) (cls : ModelCls) (item_id : Option Int) :
    Option Nat × Store × Bool :=
  match item_id with
  | none => (none, s, false)
  | some i =>
    if s.dbInit = false then (none, s, false)
    else
      match s.cacheGet (cls.doc_type, i) with
      | some r => (some r, s, false)
      | none =>
        let did := cls.doc_type ++ ":" ++ toString i
        match s.docGet did with
        | none => (none, s, true)
        | some d =>
          let (r, s1) := s.alloc (cls.from_doc d)
          (some r, s1.cachePut (cls.doc_type, i) r, true)

/-- CouchStore.dirty_objects (storage.py lines 326-327): the cached objects whose
dirty flag is set (cache dictionary values in order). -/
def Store.dirty_objects (s : Store) : List Nat :=
  (s.cache.map Prod.snd).filter (fun r => (s.deref r).dirty)

/-- A unit-of-work session (storage.py lines 330-338): the staged object references. -/
structure Session where
  pending : List Nat

/-- Session.add (storage.py lines 335-338): mark the object dirty and stage it. -/
def Session.add (sess : Session) (s : Store) (r : Nat) : Session × Store :=
  match s.getObj r with
  | none => ({ pending := sess.pending ++ [r] }, s)
  | some obj => ({ pending := sess.pending ++ [r] }, s.setObj r { obj with dirty := true })

/-- The per-object step of the staged-save loop of `Session.commit` (storage.py lines
345-347): save the object unconditionally, then record its `(class, id)` key in the
seen-set and the reference in the save log. -/
def commitPendStep (acc : Option (Store × List (String × Option Int) × List Nat))
    (r : Nat) : Option (Store × List (String × Option Int) × List Nat) := do
  let (s, seen, log) ← acc
  let s1 ← s.save r
  let obj ← s1.getObj r
  pure (s1, seen ++ [(obj.doc_type, obj.id)], log ++ [r])

/-- The staged-save phase of `Session.commit` (storage.py lines 344-348). -/
def commitPhase1 (sess : Session) (s : Store) :
    Option (Store × List (String × Option Int) × List Nat) :=
  sess.pending.foldl commitPendStep (some (s, [], []))

/-- The dirty-object step of `Session.commit` (storage.py lines 349-353): skip the
object when its key is in the seen-set, otherwise save it. -/
def commitDirtyStep (seen : List (String × Option Int)) (acc : Option (Store × List Nat))
    (r : Nat) : Option (Store × List Nat) := do
  let (s, log) ← acc
  let obj ← s.getObj r
  if seen.contains (obj.doc_type, obj.id) then pure (s, log)
  else do
    let s1 ← s.save r
    pure (s1, log ++ [r])

/-- The dirty-cache phase of `Session.commit` (storage.py lines 349-353), over the
snapshot of dirty cached objects taken when the loop starts. -/
def commitPhase2 (s : Store) (seen : List (String × Option Int)) (dirty : List Nat) :
    Option (Store × List Nat) :=
  dirty.foldl (commitDirtyStep seen) (some (s, []))

/-- Session.commit (storage.py lines 343-353): save every staged object, recording
each `(class, id)` key in the seen-set, then save the snapshot-dirty cached objects
whose key is not in the seen-set. Returns the resulting store and the full sequence
of object references passed to `CouchStore.save`, in order. -/
def Session.commit (sess : Session) (s : Store) : Option (Store × List Nat) := do
  let (s1, seen, log1) ← commitPhase1 sess s
  let (s2, log2) ← commitPhase2 s1 seen s1.dirty_objects
  pure (s2, log1 ++ log2)

/-- The comparison of the `Query.all` sort lifted to object references. -/
def refSortRel (s : Store) (f : String) (reverse : Bool) (a b : Nat) : Prop :=
  querySortRel f reverse (s.deref a) (s.deref b)

instance (s : Store) (f : String) (reverse : Bool) : DecidableRel (refSortRel s f reverse) :=
  fun _ _ => inferInstanceAs (Decidable (querySortRel _ _ _ _))

/-- A query (storage.py lines 359-374): the model class, the accumulated equality
filters of `filter_by`, and the sort set by `order_by`. `sort_field` is `None`
initially; the application never passes an empty field name, so the Python truthiness
test on `self._sort_field` is `Option.isSome`. -/
structure Query where
  cls : ModelCls
  filters : List (String × Value)
  sort_field : Option String
  sort_reverse : Bool

/-- Query.all (storage.py lines 376-389): materialize the (filtered) objects, then
sort client-side when a sort field is set. -/
def Query.all (q : Query) (s : Store) : List Nat × Store :=
  let p := if q.filters.isEmpty = false then s.filter_by q.cls q.filters else s.all q.cls
  match q.sort_field with
  | none => p
  | some f => (List.insertionSort (refSortRel p.2 f q.sort_reverse) p.1, p.2)

/-- Query.count (storage.py lines 395-396). -/
def Query.count (q : Query) (s : Store) : Nat :=
  (q.all s).1.length

/-- The shared branch condition of `Query.total` and `Query.page` (storage.py lines
399 and 407): a filter is set, or a sort field other than `id` is set. -/
def Query.nonDefault (q : Query) : Bool :=
  !q.filters.isEmpty ||
    (match q.sort_field with
     | none => false
     | some f => f != "id")

/-- Query.total (storage.py lines 398-404): a filtered or custom-ordered query falls
back to a full materialize-and-count; otherwise the precomputed total is returned
when available, with the same fallback when it is not. -/
def Query.total (q : Query) (s : Store) : Int :=
  if q.nonDefault then ((q.all s).1.length : Int)
  else
    match s.total_count q.cls.counter_key with
    | none => ((q.all s).1.length : Int)
    | some t => t

/-- Query.page (storage.py lines 406-412): a filtered or custom-ordered query slices
the materialized list in memory, with the start index clamped below at zero; a
default query delegates to the index-backed `CouchStore.page`. -/
def Query.page (q : Query) (s : Store) (page per_page : Int) : List Nat × Store :=
  if q.nonDefault then
    let p := q.all s
    let start := max 0 ((page - 1) * per_page)
    ((p.1.drop start.toNat).take per_page.toNat, p.2)
  else s.page q.cls page per_page q.sort_reverse

/-- A store with an initialized, empty database. -/
def emptyStore : Store :=
  { dbInit := true, docs := [], counters := fun _ => none, cache := [], heap := [],
    nextRef := 0 }

/-- The model class of the `Car` entity type restricted to one declared field. -/
def carCls : ModelCls := { doc_type := "car", counter_key := "cars", fieldNames := ["mass"] }

theorem cacheGet_cachePop (s : Store) (k : String × Int) : (s.cachePop k).cacheGet k = none := by
  unfold Store.cacheGet Store.cachePop
  rw [List.find?_eq_none.mpr]
  · rfl
  · intro p hp
    have := (List.mem_filter.mp hp).2
    simp_all

/-- C9: `CouchStore.get` with a `None` id, or on an uninitialized store, returns
`None` without reading the document store and without touching the identity cache or
any other store state; and a lookup of an id whose document does not exist returns
`None` after one document read and leaves the cache (indeed the whole store)
unchanged. -/
theorem C9_get_none_id_or_missing_doc (s : Store) (cls : ModelCls) :
    s.get cls none = (none, s, false)
    ∧ (s.dbInit = false → ∀ i : Int, s.get cls (some i) = (none, s, false))
    ∧ (∀ i : Int, s.dbInit = true →
        s.cacheGet (cls.doc_type, i) = none →
        s.docGet (cls.doc_type ++ ":" ++ toString i) = none →
        s.get cls (some i) = (none, s, true)) := by
  refine ⟨rfl, ?_, ?_⟩
  · intro hdb i
    simp [Store.get, hdb]
  · intro i hdb hcache hdoc
    simp [Store.get, hdb, hcache, hdoc]

/-- C9 witness: the theorem applied to a concrete empty store. -/
theorem C9_get_none_id_or_missing_doc_witness :
    emptyStore.get carCls none = (none, emptyStore, false)
    ∧ emptyStore.get carCls (some 7) = (none, emptyStore, true) := by
  exact ⟨(C9_get_none_id_or_missing_doc emptyStore carCls).1,
    (C9_get_none_id_or_missing_doc emptyStore carCls).2.2 7 rfl rfl rfl⟩

/-- C5: with no filter and default order (no sort field, or sorting by `id`),
`Query.total` returns the precomputed `"<key>_total"` counter field whenever that
field holds a value; with at least one equality filter or a non-default order it
instead returns the length of the fully materialized filtered result list, that is,
`Query.count`. -/
theorem C5_total_counter_or_scan (q : Query) (s : Store) :
    (q.filters = [] → (q.sort_field = none ∨ q.sort_field = some "id") →
      ∀ t, s.total_count q.cls.counter_key = some t → q.total s = t)
    ∧ (q.nonDefault = true → q.total s = (q.count s : Int)) := by
  constructor
  · intro hf hs t ht
    have hnd : q.nonDefault = false := by
      unfold Query.nonDefault
      rw [hf]
      rcases hs with h | h <;> simp [h]
    unfold Query.total
    rw [hnd, ht]
    rfl
  · intro h
    unfold Query.total Query.count
    rw [h]
    rfl

/-- A store whose `cars_total` counter field holds 5. -/
def carsTotalStore : Store :=
  { dbInit := true, docs := [], counters := fun k => if k = "cars_total" then some 5 else none,
    cache := [], heap := [], nextRef := 0 }

/-- The default, unfiltered query over cars. -/
def defaultCarQuery : Query :=
  { cls := carCls, filters := [], sort_field := none, sort_reverse := false }

/-- A query over cars with one equality filter. -/
def filteredCarQuery : Query :=
  { cls := carCls, filters := [("mass", .vint 3)], sort_field := none, sort_reverse := false }

/-- C5 witness: the theorem applied to a concrete store, on the default-order query
and on a filtered query. -/
theorem C5_total_counter_or_scan_witness :
    defaultCarQuery.total carsTotalStore = 5
    ∧ filteredCarQuery.total carsTotalStore
      = ((filteredCarQuery.count carsTotalStore) : Int) := by
  constructor
  · exact (C5_total_counter_or_scan defaultCarQuery carsTotalStore).1 rfl (Or.inl rfl) 5
      (by decide)
  · exact (C5_total_counter_or_scan filteredCarQuery carsTotalStore).2 rfl

/-- C10: deleting an entity with a non-None id on an initialized store always removes
the identity-cache entry for its `(class, id)`; when the entity's document does not
exist, the stored documents and the whole counters document (so in particular the
total) are left unchanged; when the document exists, the stored `"<key>_total"` field
is decremented (floored at zero, and only if it exists). -/
theorem C10_delete_cache_total_frame (s : Store) (obj : Entity) (i : Int)
    (hdb : s.dbInit = true) (hid : obj.id = some i) :
    (s.delete obj).cacheGet (obj.doc_type, i) = none
    ∧ (s.docGet (obj.doc_type ++ ":" ++ toString i) = none →
        (s.delete obj).docs = s.docs ∧ (s.delete obj).counters = s.counters)
    ∧ (∀ d, s.docGet (obj.doc_type ++ ":" ++ toString i) = some d →
        (s.delete obj).counters (obj.counter_key ++ "_total")
          = (s.counters (obj.counter_key ++ "_total")).map (fun t => max 0 (t + (-1)))) := by
  refine ⟨?_, ?_, ?_⟩
  · unfold Store.delete
    rw [hdb, hid]
    cases hdoc : s.docGet (obj.doc_type ++ ":" ++ toString i) <;>
      simp only [hdoc, Bool.true_eq_false, if_false] <;>
      exact cacheGet_cachePop _ _
  · intro hdoc
    unfold Store.delete
    rw [hdb, hid]
    simp only [hdoc]
    exact ⟨rfl, rfl⟩
  · intro d hdoc
    unfold Store.delete
    rw [hdb, hid]
    simp only [hdoc]
    show ((s.dbDelete _).update_total obj.counter_key (-1)).counters _ = _
    unfold Store.update_total Store.dbDelete
    rw [hdb]
    cases hc : s.counters (obj.counter_key ++ "_total") with
    | none => simp [hc]
    | some cur => simp [hc]

/-- A store holding one car document (id 9) in cache and heap but, for the
frame-condition witness, no longer in the document store. -/
def c10Store : Store :=
  { dbInit := true, docs := [],
    counters := fun k => if k = "cars_total" then some 3 else none,
    cache := [(("car", 9), 0)], heap := [(0, entV 9 (.vint 1))], nextRef := 1 }

/-- C10 witness: deleting an entity whose document is absent drops the cache entry
and leaves documents and counters unchanged. -/
theorem C10_delete_cache_total_frame_witness :
    (c10Store.delete (entV 9 (.vint 1))).cacheGet ("car", 9) = none
    ∧ (c10Store.delete (entV 9 (.vint 1))).docs = c10Store.docs
    ∧ (c10Store.delete (entV 9 (.vint 1))).counters = c10Store.counters := by
  have h := C10_delete_cache_total_frame c10Store (entV 9 (.vint 1)) 9 rfl rfl
  exact ⟨h.1, (h.2.1 rfl).1, (h.2.1 rfl).2⟩

/-- A stored car document with id `i`, as `CouchStore.save` would have written it. -/
def mkCarDoc (i : Int) : Doc :=
  { fields := fun n =>
      if n = "id" then some (.vint i)
      else if n = "type" then some (.vstr "car")
      else if n = "_id" then some (.vstr ("car:" ++ toString i)) else none,
    rev := some 1 }

/-- A store holding exactly one car document, with id 1. -/
def oneCarStore : Store :=
  { dbInit := true, docs := [("car:1", mkCarDoc 1)], counters := fun _ => none,
    cache := [], heap := [], nextRef := 0 }

/-- A query over cars with an equality filter matching exactly the stored car. -/
def idFilterQuery : Query :=
  { cls := carCls, filters := [("id", .vint 1)], sort_field := none, sort_reverse := false }

/-- C2, counterexample: with one stored car and `per_page = 1`, page 2 is past the
last non-empty page, so the claim requires clamping to page 1 and returning its item;
instead both the index-backed path (`defaultCarQuery`) and the filtered in-memory
path (`idFilterQuery`) return the empty list while page 1 holds one item. -/
theorem C2_high_page_not_clamped_counterexample :
    (defaultCarQuery.page oneCarStore 1 1).1.length = 1
    ∧ (defaultCarQuery.page oneCarStore 2 1).1 = []
    ∧ (idFilterQuery.page oneCarStore 1 1).1.length = 1
    ∧ (idFilterQuery.page oneCarStore 2 1).1 = [] := by
  refine ⟨?_, ?_, ?_, ?_⟩ <;> decide

/-- C2 (amended): page numbers are 1-based and out-of-range LOW pages (0 and
negative) clamp to page 1 on both the index-backed path and the filtered or
custom-ordered in-memory path; but pages past the last non-empty page are not
clamped: both paths return the empty list there. -/
theorem C2_page_clamps_low_not_high (q : Query) (s : Store) (page per_page : Int)
    (hpp : 0 < per_page) :
    (page ≤ 1 → q.page s page per_page = q.page s 1 per_page)
    ∧ (q.nonDefault = true → ((q.all s).1.length : Int) ≤ (page - 1) * per_page →
        (q.page s page per_page).1 = [])
    ∧ (q.nonDefault = false →
        ((s.pageBase q.cls q.sort_reverse).length : Int) ≤ (page - 1) * per_page →
        (q.page s page per_page).1 = []) := by
  refine ⟨?_, ?_, ?_⟩
  · intro hpage
    unfold Query.page
    by_cases hnd : q.nonDefault = true
    · rw [if_pos hnd, if_pos hnd]
      have h0 : (page - 1) * per_page ≤ 0 :=
        mul_nonpos_iff.mpr (Or.inr ⟨by omega, le_of_lt hpp⟩)
      have h1 : max 0 ((page - 1) * per_page) = 0 := max_eq_left h0
      have h2 : max 0 (((1 : Int) - 1) * per_page) = 0 := by norm_num
      rw [h1, h2]
    · rw [if_neg hnd, if_neg hnd]
      unfold Store.page
      have h1 : max 1 page = 1 := max_eq_left hpage
      have h2 : max 1 (1 : Int) = 1 := by norm_num
      rw [h1, h2]
  · intro hnd hlen
    unfold Query.page
    rw [if_pos hnd]
    show ((q.all s).1.drop (max 0 ((page - 1) * per_page)).toNat).take per_page.toNat
      = []
    have hle : ((q.all s).1.length : Int) ≤ max 0 ((page - 1) * per_page) :=
      le_trans hlen (le_max_right _ _)
    have hM : (0 : Int) ≤ max 0 ((page - 1) * per_page) := le_max_left _ _
    have hnat : (q.all s).1.length ≤ (max 0 ((page - 1) * per_page)).toNat :=
      (Int.le_toNat hM).mpr hle
    rw [List.drop_eq_nil_of_le hnat]
    exact List.take_nil
  · intro hnd hlen
    unfold Query.page
    rw [hnd]
    simp only [Bool.false_eq_true, if_false]
    unfold Store.page
    cases hdb : s.dbInit with
    | false => simp
    | true =>
      simp only [Bool.true_eq_false, if_false]
      rw [if_neg (by omega : ¬ per_page ≤ 0)]
      show ((((s.pageBase q.cls q.sort_reverse).drop
          ((max 1 page - 1) * per_page).toNat).take per_page.toNat).foldl
          (hydrateStep q.cls) ([], s)).1 = []
      have hmono : ((s.pageBase q.cls q.sort_reverse).length : Int)
          ≤ (max 1 page - 1) * per_page := by
        refine le_trans hlen (mul_le_mul_of_nonneg_right ?_ (le_of_lt hpp))
        exact sub_le_sub_right (le_max_right 1 page) 1
      have hM : (0 : Int) ≤ (max 1 page - 1) * per_page := by
        refine mul_nonneg ?_ (le_of_lt hpp)
        have := le_max_left (1 : Int) page
        omega
      have hnat : (s.pageBase q.cls q.sort_reverse).length
          ≤ ((max 1 page - 1) * per_page).toNat := (Int.le_toNat hM).mpr hmono
      rw [List.drop_eq_nil_of_le hnat, List.take_nil]
      rfl

/-- C2 witness: on the concrete one-car store, page 0 and page -3 clamp to page 1 on
the index path, and the amended theorem's high-page conclusion evaluates on page 2. -/
theorem C2_page_clamps_low_not_high_witness :
    defaultCarQuery.page oneCarStore 0 1 = defaultCarQuery.page oneCarStore 1 1
    ∧ idFilterQuery.page oneCarStore (-3) 1 = idFilterQuery.page oneCarStore 1 1
    ∧ (defaultCarQuery.page oneCarStore 2 1).1 = [] := by
  refine ⟨(C2_page_clamps_low_not_high defaultCarQuery oneCarStore 0 1 (by decide)).1
      (by decide),
    (C2_page_clamps_low_not_high idFilterQuery oneCarStore (-3) 1 (by decide)).1
      (by decide),
    (C2_page_clamps_low_not_high defaultCarQuery oneCarStore 2 1 (by decide)).2.2 rfl
      (by decide)⟩

theorem string_ne_append_total (k : String) : k ≠ k ++ "_total" := by
  intro h
  have h2 : k.length = (k ++ "_total").length := congrArg String.length h
  rw [String.length_append] at h2
  have h3 : ("_total" : String).length = 6 := rfl
  omega

theorem next_id_spec (s : Store) (key : String) (hdb : s.dbInit = true) :
    s.next_id key = some ((s.counters key).getD 0 + 1,
      { s with counters := fun k =>
          if k = key then some ((s.counters key).getD 0 + 1) else s.counters k }) := by
  unfold Store.next_id
  rw [hdb]
  rfl

theorem ensure_counter_spec (s : Store) (key : String) (v : Int) (hdb : s.dbInit = true) :
    (s.ensure_counter_at_least key v).dbInit = true
    ∧ v ≤ ((s.ensure_counter_at_least key v).counters key).getD 0
    ∧ (s.ensure_counter_at_least key v).heap = s.heap := by
  unfold Store.ensure_counter_at_least
  rw [hdb]
  simp only [Bool.true_eq_false, if_false]
  by_cases hc : v ≤ (s.counters key).getD 0
  · rw [if_pos hc]
    exact ⟨hdb, hc, rfl⟩
  · rw [if_neg hc]
    refine ⟨rfl, ?_, rfl⟩
    simp

theorem update_total_preserves (s : Store) (key : String) (delta : Int) :
    (s.update_total key delta).heap = s.heap
    ∧ (s.update_total key delta).dbInit = s.dbInit
    ∧ ∀ k, k ≠ key ++ "_total" → (s.update_total key delta).counters k = s.counters k := by
  unfold Store.update_total
  split
  · exact ⟨rfl, rfl, fun _ _ => rfl⟩
  · split
    · exact ⟨rfl, rfl, fun _ _ => rfl⟩
    · exact ⟨rfl, rfl, fun k hk => by simp [hk]⟩

theorem dbSave_preserves (s : Store) (d : Doc) :
    ∀ x s', s.dbSave d = some (x, s') →
      s'.counters = s.counters ∧ s'.heap = s.heap ∧ s'.cache = s.cache
        ∧ s'.dbInit = s.dbInit := by
  intro x s' h
  unfold Store.dbSave at h
  split at h
  · split at h
    · split at h
      · injection h with h'
        have hsnd : _ = s' := congrArg Prod.snd h'
        subst hsnd
        exact ⟨rfl, rfl, rfl, rfl⟩
      · exact absurd h (by simp)
    · split at h
      · injection h with h'
        have hsnd : _ = s' := congrArg Prod.snd h'
        subst hsnd
        exact ⟨rfl, rfl, rfl, rfl⟩
      · exact absurd h (by simp)
  · exact absurd h (by simp)

theorem find_map_update_ne (l : List (Nat × Entity)) (r r' : Nat) (e : Entity)
    (h : r' ≠ r) :
    (l.map (fun p => if p.1 = r then (r, e) else p)).find? (fun p => p.1 == r')
      = l.find? (fun p => p.1 == r') := by
  induction l with
  | nil => rfl
  | cons p rest ih =>
    rw [List.map_cons]
    by_cases hp : p.1 = r
    · rw [if_pos hp]
      rw [List.find?_cons_of_neg _ (by simp [Ne.symm h])]
      rw [List.find?_cons_of_neg _ (by simp [hp, Ne.symm h])]
      exact ih
    · by_cases hpr : p.1 = r'
      · rw [if_neg hp]
        rw [List.find?_cons_of_pos _ (by simp [hpr])]
        rw [List.find?_cons_of_pos _ (by simp [hpr])]
      · rw [if_neg hp]
        rw [List.find?_cons_of_neg _ (by simp [hpr])]
        rw [List.find?_cons_of_neg _ (by simp [hpr])]
        exact ih

theorem find_map_update_self (l : List (Nat × Entity)) (r : Nat) (e : Entity)
    (p0 : Nat × Entity) (h : l.find? (fun p => p.1 == r) = some p0) :
    (l.map (fun p => if p.1 = r then (r, e) else p)).find? (fun p => p.1 == r)
      = some (r, e) := by
  induction l with
  | nil => simp at h
  | cons p rest ih =>
    rw [List.map_cons]
    by_cases hp : p.1 = r
    · rw [if_pos hp]
      rw [List.find?_cons_of_pos _ (by simp)]
    · rw [if_neg hp]
      rw [List.find?_cons_of_neg _ (by simp [hp])]
      rw [List.find?_cons_of_neg _ (by simp [hp])] at h
      exact ih h

theorem getObj_setObj_ne (s : Store) (r r' : Nat) (e : Entity) (h : r' ≠ r) :
    (s.setObj r e).getObj r' = s.getObj r' := by
  unfold Store.getObj Store.setObj
  rw [find_map_update_ne s.heap r r' e h]

theorem getObj_setObj_self (s : Store) (r : Nat) (e e0 : Entity)
    (h : s.getObj r = some e0) : (s.setObj r e).getObj r = some e := by
  unfold Store.getObj Store.setObj
  unfold Store.getObj at h
  obtain ⟨p0, hp0, -⟩ := Option.map_eq_some'.mp h
  rw [find_map_update_self s.heap r e p0 hp0]
  rfl

theorem getObj_eq_of_heap (s t : Store) (h : s.heap = t.heap) (r : Nat) :
    s.getObj r = t.getObj r := by
  unfold Store.getObj
  rw [h]

/-- Dissection of a successful `CouchStore.save`: the store was and stays
initialized; the heap changes only at the saved reference; the saved object ends
with some id `i` (its own explicit id, or the freshly allocated `counter+1`), a
fresh revision and a clear dirty flag; and the type's counter ends at least at
`i`. -/
theorem save_spec (s : Store) (r : Nat) (e : Entity) (s' : Store)
    (hobj : s.getObj r = some e) (hsave : s.save r = some s') :
    s.dbInit = true ∧ s'.dbInit = true
    ∧ (∀ r', r' ≠ r → s'.getObj r' = s.getObj r')
    ∧ ∃ i : Int,
        (e.id = some i ∨ (e.id = none ∧ i = (s.counters e.counter_key).getD 0 + 1))
        ∧ (∃ nrev : Nat,
            s'.getObj r = some { e with id := some i, rev := some nrev, dirty := false })
        ∧ i ≤ (s'.counters e.counter_key).getD 0 := by
  have hdb : s.dbInit = true := by
    cases hdbc : s.dbInit with
    | true => rfl
    | false =>
      unfold Store.save at hsave
      rw [hobj, hdbc] at hsave
      simp at hsave
  refine ⟨hdb, ?_⟩
  unfold Store.save at hsave
  rw [hobj, hdb] at hsave
  simp only [Bool.true_eq_false, if_false] at hsave
  cases hid : e.id with
  | none =>
    rw [hid, next_id_spec s e.counter_key hdb] at hsave
    simp only at hsave
    split at hsave
    · exact absurd hsave (by simp)
    · rename_i a nrev s2 heq
      injection hsave with hs'
      subst hs'
      have hpres := dbSave_preserves _ _ _ _ heq
      have hheap1 : s2.heap = s.heap := hpres.2.1
      have hcnt2 : s2.counters = fun k =>
          if k = e.counter_key then some ((s.counters e.counter_key).getD 0 + 1)
          else s.counters k := hpres.1
      set i := (s.counters e.counter_key).getD 0 + 1 with hidef
      set obj2 : Entity :=
        { e with id := some i, rev := some nrev, dirty := false } with hobj2
      set s3 := ((s2.setObj r obj2).cachePut (obj2.doc_type, i) r) with hs3
      have hheap3 : s3.heap = (s2.setObj r obj2).heap := rfl
      have hcnt3 : s3.counters = s2.counters := rfl
      have hdb3 : s3.dbInit = s2.dbInit := rfl
      have hgets3ne : ∀ r', r' ≠ r → s3.getObj r' = s.getObj r' := by
        intro r' hr'
        rw [getObj_eq_of_heap s3 (s2.setObj r obj2) hheap3 r',
          getObj_setObj_ne s2 r r' obj2 hr']
        exact getObj_eq_of_heap s2 s hheap1 r'
      have hgets3r : s3.getObj r = some obj2 := by
        rw [getObj_eq_of_heap s3 (s2.setObj r obj2) hheap3 r]
        refine getObj_setObj_self s2 r obj2 e ?_
        rw [getObj_eq_of_heap s2 s hheap1 r]
        exact hobj
      have hcntv : (s3.counters e.counter_key).getD 0 = i := by
        rw [hcnt3, hcnt2]
        simp
      split
      · -- is_new: total updated
        have hup := update_total_preserves s3 (Entity.counter_key obj2) 1
        refine ⟨by rw [hup.2.1, hdb3, hpres.2.2.2]; exact hdb, ?_, i,
          Or.inr ⟨rfl, hidef⟩, ⟨nrev, ?_⟩, ?_⟩
        · intro r' hr'
          rw [getObj_eq_of_heap _ s3 hup.1 r']
          exact hgets3ne r' hr'
        · rw [getObj_eq_of_heap _ s3 hup.1 r]
          exact hgets3r
        · rw [hup.2.2 e.counter_key (string_ne_append_total e.counter_key), hcntv]
      · refine ⟨by rw [hdb3, hpres.2.2.2]; exact hdb, ?_, i, Or.inr ⟨rfl, hidef⟩,
          ⟨nrev, hgets3r⟩, ?_⟩
        · exact hgets3ne
        · rw [hcntv]
  | some j =>
    rw [hid] at hsave
    simp only at hsave
    split at hsave
    · exact absurd hsave (by simp)
    · rename_i a nrev s2 heq
      injection hsave with hs'
      subst hs'
      have hens := ensure_counter_spec s e.counter_key j hdb
      have hpres := dbSave_preserves _ _ _ _ heq
      have hheap1 : s2.heap = s.heap := by rw [hpres.2.1, hens.2.2]
      set obj2 : Entity :=
        { e with id := some j, rev := some nrev, dirty := false } with hobj2
      set s3 := ((s2.setObj r obj2).cachePut (obj2.doc_type, j) r) with hs3
      have hheap3 : s3.heap = (s2.setObj r obj2).heap := rfl
      have hcnt3 : s3.counters = s2.counters := rfl
      have hdb3 : s3.dbInit = s2.dbInit := rfl
      have hgets3ne : ∀ r', r' ≠ r → s3.getObj r' = s.getObj r' := by
        intro r' hr'
        rw [getObj_eq_of_heap s3 (s2.setObj r obj2) hheap3 r',
          getObj_setObj_ne s2 r r' obj2 hr']
        exact getObj_eq_of_heap s2 s hheap1 r'
      have hgets3r : s3.getObj r = some obj2 := by
        rw [getObj_eq_of_heap s3 (s2.setObj r obj2) hheap3 r]
        refine getObj_setObj_self s2 r obj2 e ?_
        rw [getObj_eq_of_heap s2 s hheap1 r]
        exact hobj
      have hcntv : j ≤ (s3.counters e.counter_key).getD 0 := by
        rw [hcnt3, hpres.1]
        exact hens.2.1
      split
      · have hup := update_total_preserves s3 (Entity.counter_key obj2) 1
        refine ⟨by rw [hup.2.1, hdb3, hpres.2.2.2]; exact hens.1, ?_, j,
          Or.inl rfl, ⟨nrev, ?_⟩, ?_⟩
        · intro r' hr'
          rw [getObj_eq_of_heap _ s3 hup.1 r']
          exact hgets3ne r' hr'
        · rw [getObj_eq_of_heap _ s3 hup.1 r]
          exact hgets3r
        · rw [hup.2.2 e.counter_key (string_ne_append_total e.counter_key)]
          exact hcntv
      · exact ⟨by rw [hdb3, hpres.2.2.2]; exact hens.1, hgets3ne, j,
          Or.inl rfl, ⟨nrev, hgets3r⟩, hcntv⟩

/-- C4: saving an entity that carries an explicit id of 50 raises the type's counter
to at least 50 without ever decreasing it, so a subsequent save of a new entity of
the same type with no id is assigned an id of at least 51. -/
theorem C4_explicit_id_then_fresh_id_ge (s0 : Store) (r1 r2 : Nat) (e1 e2 : Entity)
    (s1 s2 : Store)
    (h1 : s0.getObj r1 = some e1) (h2 : s0.getObj r2 = some e2)
    (hne : r2 ≠ r1)
    (hid1 : e1.id = some 50) (hid2 : e2.id = none)
    (hck : e2.counter_key = e1.counter_key)
    (hs1 : s0.save r1 = some s1) (hs2 : s1.save r2 = some s2) :
    ∃ e2' : Entity, s2.getObj r2 = some e2' ∧ ∃ i : Int, e2'.id = some i ∧ 51 ≤ i := by
  obtain ⟨-, -, hframe1, i1, hi1, ⟨nrev1, -⟩, hcnt1⟩ := save_spec s0 r1 e1 s1 h1 hs1
  have hi1v : i1 = 50 := by
    rcases hi1 with h | ⟨h, -⟩
    · rw [hid1] at h
      exact (Option.some.injEq _ _ ▸ h).symm
    · rw [hid1] at h
      exact absurd h (by simp)
  have hobj2 : s1.getObj r2 = some e2 := by
    rw [hframe1 r2 hne]
    exact h2
  obtain ⟨-, -, -, i2, hi2, ⟨nrev2, hres⟩, -⟩ := save_spec s1 r2 e2 s2 hobj2 hs2
  have hi2v : i2 = (s1.counters e2.counter_key).getD 0 + 1 := by
    rcases hi2 with h | ⟨-, h⟩
    · rw [hid2] at h
      exact absurd h (by simp)
    · exact h
  refine ⟨_, hres, i2, rfl, ?_⟩
  rw [hi2v, hck]
  have : (50 : Int) ≤ (s1.counters e1.counter_key).getD 0 := hi1v ▸ hcnt1
  omega

/-- A new, unsaved car entity with no id yet. -/
def entNoId (v : Value) : Entity :=
  { doc_type := "car", counter_key := "cars", id := none, fieldNames := ["mass"],
    values := fun n => if n = "mass" then v else .vnone, rev := none, dirty := true }

/-- A store holding two unsaved car objects: one with the explicit id 50, one with
no id. -/
def c4Store : Store :=
  { dbInit := true, docs := [], counters := fun _ => none, cache := [],
    heap := [(1, entV 50 (.vint 2)), (2, entNoId (.vint 3))], nextRef := 3 }

/-- C4 witness: the theorem applied to the concrete store; the two saves succeed and
the freshly allocated id is at least 51. -/
theorem C4_explicit_id_then_fresh_id_ge_witness :
    ∃ s1 s2 : Store, c4Store.save 1 = some s1 ∧ s1.save 2 = some s2
      ∧ ∃ e2' : Entity, s2.getObj 2 = some e2' ∧ ∃ i : Int, e2'.id = some i ∧ 51 ≤ i := by
  refine ⟨_, _, rfl, rfl, ?_⟩
  exact C4_explicit_id_then_fresh_id_ge c4Store 1 2 (entV 50 (.vint 2)) (entNoId (.vint 3))
    _ _ rfl rfl (by decide) rfl rfl rfl rfl rfl

theorem commitPendStep_none (l : List Nat) :
    l.foldl commitPendStep none = none := by
  induction l with
  | nil => rfl
  | cons r rest ih => simpa [commitPendStep] using ih

theorem commitDirtyStep_none (seen : List (String × Option Int)) (l : List Nat) :
    l.foldl (commitDirtyStep seen) none = none := by
  induction l with
  | nil => rfl
  | cons r rest ih => simpa [commitDirtyStep] using ih

theorem commitPendStep_shape (s : Store) (seen : List (String × Option Int))
    (log : List Nat) (r : Nat) (t : Store × List (String × Option Int) × List Nat)
    (h : commitPendStep (some (s, seen, log)) r = some t) :
    ∃ s' k, t = (s', seen ++ [k], log ++ [r]) := by
  unfold commitPendStep at h
  cases hsv : s.save r with
  | none => simp [hsv] at h
  | some s1 =>
    cases hob : s1.getObj r with
    | none => simp [hsv, hob] at h
    | some obj =>
      simp [hsv, hob] at h
      exact ⟨s1, (obj.doc_type, obj.id), h.symm⟩

theorem commitPhase1_log_aux (l : List Nat) :
    ∀ (s : Store) (seen0 : List (String × Option Int)) (log0 : List Nat)
      (s1 : Store) (seen1 : List (String × Option Int)) (log1 : List Nat),
      l.foldl commitPendStep (some (s, seen0, log0)) = some (s1, seen1, log1) →
      log1 = log0 ++ l := by
  induction l with
  | nil =>
    intro s seen0 log0 s1 seen1 log1 h
    injection h with h'
    have h3 : log0 = log1 := congrArg (fun t => t.2.2) h'
    rw [← h3]
    simp
  | cons r rest ih =>
    intro s seen0 log0 s1 seen1 log1 h
    rw [List.foldl_cons] at h
    cases hstep : commitPendStep (some (s, seen0, log0)) r with
    | none =>
      rw [hstep, commitPendStep_none] at h
      exact absurd h (by simp)
    | some t =>
      obtain ⟨s', k, rfl⟩ := commitPendStep_shape s seen0 log0 r t hstep
      rw [hstep] at h
      rw [ih s' (seen0 ++ [k]) (log0 ++ [r]) s1 seen1 log1 h]
      simp

theorem dirty_objects_isSome (s : Store) (r : Nat) (h : r ∈ s.dirty_objects) :
    (s.getObj r).isSome := by
  unfold Store.dirty_objects at h
  have hdirty := (List.mem_filter.mp h).2
  cases hg : s.getObj r with
  | none =>
    exfalso
    unfold Store.deref at hdirty
    rw [hg] at hdirty
    exact absurd hdirty (by decide)
  | some e => rfl

theorem commitPhase2_log_aux (seen : List (String × Option Int)) (sref : Store)
    (l : List Nat) :
    ∀ (s : Store) (log0 : List Nat) (s2 : Store) (log2 : List Nat),
      l.Nodup →
      (∀ r ∈ l, s.getObj r = sref.getObj r) →
      (∀ r ∈ l, (sref.getObj r).isSome) →
      l.foldl (commitDirtyStep seen) (some (s, log0)) = some (s2, log2) →
      log2 = log0 ++ l.filter
        (fun r => !seen.contains ((sref.deref r).doc_type, (sref.deref r).id)) := by
  induction l with
  | nil =>
    intro s log0 s2 log2 _ _ _ h
    injection h with h'
    have h3 : log0 = log2 := congrArg (fun t => t.2) h'
    rw [← h3]
    simp
  | cons r rest ih =>
    intro s log0 s2 log2 hnd hcons hsome hfold
    rw [List.foldl_cons] at hfold
    have hobj : s.getObj r = sref.getObj r := hcons r (List.mem_cons_self r rest)
    obtain ⟨e, he⟩ := Option.isSome_iff_exists.mp (hsome r (List.mem_cons_self r rest))
    have hder : sref.deref r = e := by
      unfold Store.deref
      rw [he]
      rfl
    by_cases hmem : (e.doc_type, e.id) ∈ seen
    · have hstep : commitDirtyStep seen (some (s, log0)) r = some (s, log0) := by
        simp [commitDirtyStep, hobj, he, hmem]
      rw [hstep] at hfold
      rw [ih s log0 s2 log2 (List.nodup_cons.mp hnd).2
        (fun r' hr' => hcons r' (List.mem_cons_of_mem r hr'))
        (fun r' hr' => hsome r' (List.mem_cons_of_mem r hr')) hfold]
      rw [List.filter_cons]
      simp [hder, hmem]
    · cases hsv : s.save r with
      | none =>
        have hstep : commitDirtyStep seen (some (s, log0)) r = none := by
          simp [commitDirtyStep, hobj, he, hmem, hsv]
        rw [hstep, commitDirtyStep_none] at hfold
        exact absurd hfold (by simp)
      | some st =>
        have hstep : commitDirtyStep seen (some (s, log0)) r = some (st, log0 ++ [r]) := by
          simp [commitDirtyStep, hobj, he, hmem, hsv]
        rw [hstep] at hfold
        have hpres : ∀ r' ∈ rest, st.getObj r' = sref.getObj r' := by
          intro r' hr'
          have hne : r' ≠ r := by
            intro hcontra
            rw [hcontra] at hr'
            exact (List.nodup_cons.mp hnd).1 hr'
          rw [(save_spec s r e st (hobj.trans he) hsv).2.2.1 r' hne]
          exact hcons r' (List.mem_cons_of_mem r hr')
        rw [ih st (log0 ++ [r]) s2 log2 (List.nodup_cons.mp hnd).2 hpres
          (fun r' hr' => hsome r' (List.mem_cons_of_mem r hr')) hfold]
        rw [List.filter_cons]
        simp [hder, hmem]

/-- A store holding one unsaved car object at reference 1, to be staged twice. -/
def c6Store : Store :=
  { dbInit := true, docs := [], counters := fun _ => none, cache := [],
    heap := [(1, entNoId (.vint 3))], nextRef := 2 }

/-- C6, counterexample: the staged-save loop of `Session.commit` does not consult the
seen-set, so an entity occurring twice in the pending list is passed to
`CouchStore.save` twice in the same commit pass (the save log is `[1, 1]`), refuting
the claim that no entity is saved more than once. -/
theorem C6_pending_duplicate_saved_twice_counterexample :
    (∃ s' : Store, Session.commit { pending := [1, 1] } c6Store = some (s', [1, 1]))
    ∧ ¬ ([1, 1] : List Nat).Nodup := by
  exact ⟨⟨_, rfl⟩, by decide⟩

/-- C6 (amended): in a commit pass the staged phase saves every pending occurrence in
order — a duplicate occurrence in the pending list is saved once per occurrence, not
skipped — and the dirty phase (over a duplicate-free snapshot of dirty cached
objects) saves exactly those whose `(class, id)` key was not recorded by the staged
phase; only that second phase consults the seen-set. -/
theorem C6_commit_saves_pending_then_unseen_dirty (sess : Session) (s : Store) :
    (∀ s1 seen log1, commitPhase1 sess s = some (s1, seen, log1) → log1 = sess.pending)
    ∧ (∀ (s1 : Store) (seen : List (String × Option Int)) (s2 : Store) (log2 : List Nat),
        (s1.dirty_objects).Nodup →
        commitPhase2 s1 seen s1.dirty_objects = some (s2, log2) →
        log2 = (s1.dirty_objects).filter
          (fun r => !seen.contains ((s1.deref r).doc_type, (s1.deref r).id))) := by
  constructor
  · intro s1 seen log1 h
    have := commitPhase1_log_aux sess.pending s [] [] s1 seen log1 h
    simpa using this
  · intro s1 seen s2 log2 hnd h
    have := commitPhase2_log_aux seen s1 s1.dirty_objects s1 [] s2 log2 hnd
      (fun _ _ => rfl) (fun r hr => dirty_objects_isSome s1 r hr) h
    simpa using this

/-- A store with one clean persisted car in cache (dirty) and one unsaved car on the
heap, for the commit witness. -/
def c6WStore : Store :=
  { dbInit := true, docs := [("car:5", mkCarDoc 5)],
    counters := fun _ => none,
    cache := [(("car", 5), 7)],
    heap := [(7, { entV 5 (.vint 1) with rev := some 1, dirty := true }),
             (8, entNoId (.vint 2))],
    nextRef := 9 }

/-- C6 witness: the amended theorem applied to a concrete staged save and to a
concrete dirty-phase run. -/
theorem C6_commit_saves_pending_then_unseen_dirty_witness :
    (∃ s1 seen log1, commitPhase1 { pending := [8] } c6WStore = some (s1, seen, log1)
        ∧ log1 = [8])
    ∧ (∃ s2 log2, commitPhase2 c6WStore [("car", some 9)] c6WStore.dirty_objects
        = some (s2, log2)
        ∧ log2 = c6WStore.dirty_objects.filter
            (fun r => !([(("car" : String), (some 9 : Option Int))]).contains
              ((c6WStore.deref r).doc_type, (c6WStore.deref r).id))) := by
  constructor
  · refine ⟨_, _, _, rfl, ?_⟩
    exact (C6_commit_saves_pending_then_unseen_dirty { pending := [8] } c6WStore).1 _ _ _ rfl
  · refine ⟨_, _, rfl, ?_⟩
    exact (C6_commit_saves_pending_then_unseen_dirty { pending := [8] } c6WStore).2
      c6WStore [("car", some 9)] _ _ (by decide) rfl

namespace NextIdCAS

/-- Snapshot of the counters document as far as the CAS loops read it: a counter
value and the document revision. -/
structure Ctr where
  value : Int
  rev : Nat
deriving DecidableEq

/-- One scheduler event: process `p` reads the counters document, or process `p`
attempts the save of its current CAS iteration. -/
inductive Ev where
  | read (p : Nat)
  | trySave (p : Nat)

/-- Interleaved system state for `next_id` callers: the stored counters document,
each process's latest read snapshot (its local `doc`), and the ids returned so far,
in commit order. -/
structure Sys where
  ctr : Ctr
  regs : Nat → Option Ctr
  rets : List Int

/-- One interleaving step of the `next_id` CAS loop (storage.py lines 123-131)
against the revision-checked store (spec sections 4.1 and 5): a read takes a
snapshot; a save attempt succeeds only when the presented revision is current, in
which case the incremented value is stored under a fresh revision and returned to
the caller; a stale revision is a conflict, and the process retries by reading
again later. -/
def step (s : Sys) (e : Ev) : Sys :=
  match e with
  | .read p => { s with regs := fun q => if q = p then some s.ctr else s.regs q }
  | .trySave p =>
    match s.regs p with
    | none => s
    | some c =>
      if c.rev = s.ctr.rev then
        { ctr := { value := c.value + 1, rev := s.ctr.rev + 1 },
          regs := s.regs,
          rets := s.rets ++ [c.value + 1] }
      else s

/-- Run a whole schedule. -/
def run (s : Sys) (tr : List Ev) : Sys :=
  tr.foldl step s

/-- Initial state: counter value `c0` at revision `r0`, no process has read yet, no
call has returned. -/
def start (c0 : Int) (r0 : Nat) : Sys :=
  { ctr := { value := c0, rev := r0 }, regs := fun _ => none, rets := [] }

/-- The ids returned by the first `k` successful saves that start from counter value
`c0`: the list `c0+1, c0+2, .., c0+k` in order. -/
def retList (c0 : Int) : Nat → List Int
  | 0 => []
  | k + 1 => retList c0 k ++ [c0 + 1 + k]

theorem retList_length (c0 : Int) (k : Nat) : (retList c0 k).length = k := by
  induction k with
  | zero => rfl
  | succ k ih => simp [retList, ih]

theorem retList_mem (c0 : Int) (k : Nat) (x : Int) :
    x ∈ retList c0 k ↔ (c0 + 1 ≤ x ∧ x ≤ c0 + k) := by
  induction k with
  | zero => simp [retList]; omega
  | succ k ih =>
    simp only [retList, List.mem_append, List.mem_singleton, ih]
    constructor
    · rintro (⟨h1, h2⟩ | rfl) <;> constructor <;> omega
    · rintro ⟨h1, h2⟩
      by_cases hx : x ≤ c0 + k
      · exact Or.inl ⟨h1, hx⟩
      · right
        push_cast at h2 ⊢
        omega

theorem retList_nodup (c0 : Int) (k : Nat) : (retList c0 k).Nodup := by
  induction k with
  | zero => exact List.nodup_nil
  | succ k ih =>
    refine List.Nodup.append ih (List.nodup_singleton _) ?_
    intro x hx hx2
    rw [List.mem_singleton] at hx2
    rw [retList_mem] at hx
    subst hx2
    omega

/-- Reachability invariant: after `k` successful saves the document holds
`(c0 + k, r0 + k)`, the returned ids are `c0+1 .. c0+k` in order, and every stored
snapshot is a past document state, so a snapshot at the current revision carries the
current value. -/
def Inv (c0 : Int) (r0 : Nat) (s : Sys) : Prop :=
  ∃ k : Nat,
    s.ctr.value = c0 + k ∧ s.ctr.rev = r0 + k
    ∧ s.rets = retList c0 k
    ∧ (∀ p c, s.regs p = some c →
        c.rev ≤ s.ctr.rev ∧ (c.rev = s.ctr.rev → c.value = s.ctr.value))

theorem step_inv {c0 : Int} {r0 : Nat} {s : Sys} (h : Inv c0 r0 s) (e : Ev) :
    Inv c0 r0 (step s e) := by
  obtain ⟨k, hv, hr, hrets, hregs⟩ := h
  cases e with
  | read p =>
    refine ⟨k, hv, hr, hrets, ?_⟩
    intro q c hq
    simp only [step] at hq
    by_cases hqp : q = p
    · rw [if_pos hqp] at hq
      cases hq
      exact ⟨le_refl _, fun _ => rfl⟩
    · rw [if_neg hqp] at hq
      exact hregs q c hq
  | trySave p =>
    cases hreg : s.regs p with
    | none =>
      have hstep : step s (.trySave p) = s := by simp [step, hreg]
      rw [hstep]
      exact ⟨k, hv, hr, hrets, hregs⟩
    | some c =>
      by_cases hc : c.rev = s.ctr.rev
      · have hcv : c.value = s.ctr.value := (hregs p c hreg).2 hc
        have hstep : step s (.trySave p)
            = { ctr := { value := c.value + 1, rev := s.ctr.rev + 1 }, regs := s.regs,
                rets := s.rets ++ [c.value + 1] } := by
          simp [step, hreg, hc]
        rw [hstep]
        refine ⟨k + 1, ?_, ?_, ?_, ?_⟩
        · show c.value + 1 = c0 + ((k : Int) + 1)
          rw [hcv, hv]
          ring
        · show s.ctr.rev + 1 = r0 + (k + 1)
          omega
        · show s.rets ++ [c.value + 1] = retList c0 (k + 1)
          rw [hrets, hcv, hv]
          have harith : c0 + (k : Int) + 1 = c0 + 1 + (k : Int) := by ring
          rw [harith]
          rfl
        · intro q c2 hq
          have hold := hregs q c2 hq
          refine ⟨le_trans hold.1 (Nat.le_succ _), ?_⟩
          intro heq
          exfalso
          have := hold.1
          simp only at heq
          omega
      · have hstep : step s (.trySave p) = s := by simp [step, hreg, hc]
        rw [hstep]
        exact ⟨k, hv, hr, hrets, hregs⟩

theorem run_inv {c0 : Int} {r0 : Nat} {s : Sys} (h : Inv c0 r0 s) (tr : List Ev) :
    Inv c0 r0 (run s tr) := by
  induction tr generalizing s with
  | nil => exact h
  | cons e rest ih => exact ih (step_inv h e)

theorem start_inv (c0 : Int) (r0 : Nat) : Inv c0 r0 (start c0 r0) :=
  ⟨0, by simp [start], by simp [start], rfl, by simp [start]⟩

end NextIdCAS

/-- C3: in every interleaving of concurrent `next_id` callers against the
revision-checked counters document that starts from counter value 10 and in which N
calls return (each call returns exactly at its one successful save), the returned
ids are pairwise distinct and are exactly the set 11 .. 10+N, with no duplicates and
no skipped values. -/
theorem C3_next_id_concurrent_fill (tr : List NextIdCAS.Ev) (N : Nat) (r0 : Nat)
    (hN : (NextIdCAS.run (NextIdCAS.start 10 r0) tr).rets.length = N) :
    (NextIdCAS.run (NextIdCAS.start 10 r0) tr).rets.Nodup
    ∧ ∀ x : Int, x ∈ (NextIdCAS.run (NextIdCAS.start 10 r0) tr).rets ↔
        (11 ≤ x ∧ x ≤ 10 + N) := by
  obtain ⟨k, _hv, _hr, hrets, _hregs⟩ :=
    NextIdCAS.run_inv (NextIdCAS.start_inv 10 r0) tr
  have hk : k = N := by
    rw [hrets, NextIdCAS.retList_length] at hN
    exact hN
  subst hk
  rw [hrets]
  refine ⟨NextIdCAS.retList_nodup 10 k, ?_⟩
  intro x
  rw [NextIdCAS.retList_mem]
  constructor
  · rintro ⟨h1, h2⟩
    constructor <;> omega
  · rintro ⟨h1, h2⟩
    constructor <;> omega

/-- C3 witness: a concrete two-caller schedule in which the second save attempt
conflicts and retries; the returned ids are exactly 11 and 12. -/
theorem C3_next_id_concurrent_fill_witness :
    (NextIdCAS.run (NextIdCAS.start 10 0)
      [.read 0, .read 1, .trySave 0, .trySave 1, .read 1, .trySave 1]).rets = [11, 12]
    ∧ (NextIdCAS.run (NextIdCAS.start 10 0)
      [.read 0, .read 1, .trySave 0, .trySave 1, .read 1, .trySave 1]).rets.Nodup := by
  refine ⟨rfl, (C3_next_id_concurrent_fill
    [.read 0, .read 1, .trySave 0, .trySave 1, .read 1, .trySave 1] 2 0 rfl).1⟩

namespace TotalCAS

/-- Interleaved state of concurrent `_update_total` callers: the stored total field
(with its revision) and each process's latest read snapshot. -/
structure TSys where
  ctr : NextIdCAS.Ctr
  regs : Nat → Option NextIdCAS.Ctr

/-- One interleaving step of the `_update_total` CAS loop (storage.py lines 306-317),
where process `p` applies the delta `deltas p`: a successful save replaces the total
`t` it read by `max 0 (t + delta)` under a fresh revision; a stale revision is a
conflict and the process retries. -/
def step (deltas : Nat → Int) (s : TSys) (e : NextIdCAS.Ev) : TSys :=
  match e with
  | .read p => { s with regs := fun q => if q = p then some s.ctr else s.regs q }
  | .trySave p =>
    match s.regs p with
    | none => s
    | some c =>
      if c.rev = s.ctr.rev then
        { ctr := { value := max 0 (c.value + deltas p), rev := s.ctr.rev + 1 },
          regs := s.regs }
      else s

/-- Run a whole schedule. -/
def run (deltas : Nat → Int) (s : TSys) (tr : List NextIdCAS.Ev) : TSys :=
  tr.foldl (step deltas) s

theorem step_nonneg (deltas : Nat → Int) (s : TSys) (e : NextIdCAS.Ev)
    (h : 0 ≤ s.ctr.value) : 0 ≤ (step deltas s e).ctr.value := by
  cases e with
  | read p => simpa [step] using h
  | trySave p =>
    cases hreg : s.regs p with
    | none => simpa [step, hreg] using h
    | some c =>
      by_cases hc : c.rev = s.ctr.rev
      · simp [step, hreg, hc]
      · simpa [step, hreg, hc] using h

end TotalCAS

/-- C7: when the `"<key>_total"` field holds `t`, `_update_total` with any integer
delta stores exactly `max 0 (t + delta)`; and under every interleaving of concurrent
updates through the CAS loop (in particular any sequence of create +1 and delete -1
updates) a total that starts non-negative is never negative. -/
theorem C7_update_total_floored (s : Store) (key : String) (delta t : Int)
    (hdb : s.dbInit = true) (ht : s.counters (key ++ "_total") = some t) :
    (s.update_total key delta).counters (key ++ "_total") = some (max 0 (t + delta))
    ∧ ∀ (deltas : Nat → Int) (sys : TotalCAS.TSys) (tr : List NextIdCAS.Ev),
        0 ≤ sys.ctr.value → 0 ≤ (TotalCAS.run deltas sys tr).ctr.value := by
  constructor
  · unfold Store.update_total
    rw [hdb, ht]
    simp
  · intro deltas sys tr h0
    induction tr generalizing sys with
    | nil => exact h0
    | cons e rest ih => exact ih _ (TotalCAS.step_nonneg deltas sys e h0)

/-- C7 witness: a concrete floored decrement (5 - 7 stores 0), and a concrete
two-step schedule keeping the total non-negative. -/
theorem C7_update_total_floored_witness :
    (carsTotalStore.update_total "cars" (-7)).counters ("cars" ++ "_total") = some 0
    ∧ 0 ≤ (TotalCAS.run (fun _ => -3)
        { ctr := { value := 0, rev := 0 }, regs := fun _ => none }
        [.read 0, .trySave 0]).ctr.value := by
  have h := C7_update_total_floored carsTotalStore "cars" (-7) 5 rfl (by decide)
  constructor
  · rw [h.1]
    decide
  · exact h.2 (fun _ => -3) { ctr := { value := 0, rev := 0 }, regs := fun _ => none }
      [.read 0, .trySave 0] (by decide)

end RailInv
